import Mathlib

/-!
Verification of the `gen_password` repository (two Python CLI password
generators, `ultra_password.py` and `xkcd_password.py`) against its
natural-language specification.  Python strings are embedded as `List Char`,
the cryptographically secure random source (`secrets.choice`) as an oracle
index stream, fallible operations (indexing, `math.log`, `int()`,
`sys.exit`) as `Option`/`Except`, and `float` entropy arithmetic as exact
real arithmetic.
-/

namespace GenPassword

/-- A Python `str`, embedded as its list of characters. -/
abbrev PyStr := List Char

/-- Characters treated as whitespace by Python's `str.strip()` / `str.split()`
(ASCII whitespace: space, tab, newline, vertical tab, form feed, carriage
return). -/
def pyIsSpace (c : Char) : Bool :=
  c = ' ' || c = '\t' || c = '\n' || c = '\x0b' || c = '\x0c' || c = '\r'

/-- Python `str.strip()`: drop leading and trailing whitespace. -/
def pyStrip (s : PyStr) : PyStr :=
  ((s.dropWhile pyIsSpace).reverse.dropWhile pyIsSpace).reverse

/-- One step of the right fold implementing `str.split()`: a whitespace
character closes the current token, any other character is prepended to it. -/
def pySplitStep (c : Char) (acc : List PyStr) : List PyStr :=
  if pyIsSpace c then [] :: acc
  else
    match acc with
    | [] => [[c]]
    | t :: ts => (c :: t) :: ts

/-- Python `str.split()` with no arguments: split on runs of whitespace,
discarding empty tokens. -/
def pySplit (s : PyStr) : List PyStr :=
  (s.foldr pySplitStep []).filter (fun t => t ≠ [])

/-- Python `chr`. -/
def pyChr (n : Nat) : Char := Char.ofNat n

/-- Python `range(a, b)`. -/
def pyRange (a b : Nat) : List Nat := (List.range (b - a)).map (a + ·)

/-- Python `str.translate` with a table mapping every character of `dels` to
`None`: delete those characters from the string. -/
def translateDelete (s : PyStr) (dels : List Char) : PyStr :=
  s.filter (fun c => c ∉ dels)

namespace Charset

/-- `ultra_password.py` line 50: `Charset.default`. -/
def default : PyStr := "?.*#%0123456789CDFHJKLMNPQRTVWXY".data

/-- `ultra_password.py` line 51: `Charset.symlow`. -/
def symlow : PyStr := "./-+=0123456789abcdefgikrsuvwxyz".data

/-- `ultra_password.py` line 52: `Charset.alpha = "".join(map(chr, range(ord('a'), ord('z')+1)))`. -/
def alpha : PyStr := (pyRange 'a'.toNat ('z'.toNat + 1)).map pyChr

/-- `ultra_password.py` line 53: `Charset.ALPHA`. -/
def ALPHA : PyStr := (pyRange 'A'.toNat ('Z'.toNat + 1)).map pyChr

/-- `ultra_password.py` line 54: `Charset.digit`. -/
def digit : PyStr := (pyRange '0'.toNat ('9'.toNat + 1)).map pyChr

/-- `ultra_password.py` line 55: `Charset.alphanum = alpha + digit`. -/
def alphanum : PyStr := alpha ++ digit

/-- `ultra_password.py` line 56: `Charset.xdigit = digit + "abcdef"`. -/
def xdigit : PyStr := digit ++ "abcdef".data

/-- `ultra_password.py` line 57: `Charset.Alpha = ALPHA + alpha`. -/
def Alpha : PyStr := ALPHA ++ alpha

/-- `ultra_password.py` line 58: `Charset.AlphaNum = Alpha + digit`. -/
def AlphaNum : PyStr := Alpha ++ digit

/-- `ultra_password.py` line 59: `Charset.base32 = alpha + "234567"`. -/
def base32 : PyStr := alpha ++ "234567".data

/-- `ultra_password.py` line 60: `Charset.base58`, `AlphaNum` with
`O`, `0`, `I`, `l` deleted. -/
def base58 : PyStr := translateDelete AlphaNum ['O', '0', 'I', 'l']

/-- `ultra_password.py` line 61: `Charset.zbase32`, `alphanum` with
`0`, `l`, `v`, `2` deleted. -/
def zbase32 : PyStr := translateDelete alphanum ['0', 'l', 'v', '2']

/-- `ultra_password.py` line 62: `Charset.bech32`, `alphanum` with
`1`, `b`, `i`, `0` deleted. -/
def bech32 : PyStr := translateDelete alphanum ['1', 'b', 'i', '0']

/-- The `Charset` enum of `ultra_password.py` (lines 49-62) as a registry
mapping each member name to its symbol sequence, in declaration order. -/
def registry : List (String × PyStr) :=
  [("default", default), ("symlow", symlow), ("alpha", alpha),
   ("ALPHA", ALPHA), ("digit", digit), ("alphanum", alphanum),
   ("xdigit", xdigit), ("Alpha", Alpha), ("AlphaNum", AlphaNum),
   ("base32", base32), ("base58", base58), ("zbase32", zbase32),
   ("bech32", bech32)]

end Charset

/-- Sequentially run an `Option`-valued function over a list, failing as soon
as one element fails (the embedding of a Python loop or generator expression
in which each iteration may raise). -/
def traverseOption (f : α → Option β) : List α → Option (List β)
  | [] => some []
  | a :: l =>
    match f a with
    | none => none
    | some b =>
      match traverseOption f l with
      | none => none
      | some bs => some (b :: bs)

/-- One iteration of the loop in `load` (`xkcd_password.py` lines 49-51):
`tokens = line.strip().split(); word = tokens[1] if len(tokens) == 2 else
tokens[0]`.  Indexing an empty token list raises, modelled as `none`. -/
def loadLine (line : PyStr) : Option PyStr :=
  let tokens := pySplit (pyStrip line)
  if tokens.length = 2 then tokens[1]? else tokens[0]?

/-- `load` of `xkcd_password.py` (lines 42-52), with the file content given
as its list of lines: extract one word per line, in file order. -/
def load (lines : List PyStr) : Option (List PyStr) :=
  traverseOption loadLine lines

/-- The per-line word rule as the spec words it: the second whitespace token
when the line has exactly two tokens, and the first token otherwise. -/
def specLineWord (line : PyStr) : PyStr :=
  let tokens := pySplit (pyStrip line)
  if tokens.length = 2 then tokens.getD 1 [] else tokens.getD 0 []

/-- The keys of Python's `collections.Counter(l)`: the distinct elements of
`l` in order of first occurrence. -/
def counterKeys {α : Type _} [DecidableEq α] : List α → List α
  | [] => []
  | w :: ws => w :: (counterKeys ws).filter (fun x => x ≠ w)

/-- `validate` of `xkcd_password.py` (lines 55-63): builds `Counter(words)`;
when some word repeats (`len(words) != len(wc)`) it writes the list of all
words of count `> 1` (in `Counter` key order) to stderr and calls
`sys.exit(1)`, modelled as `Except.error (1, duped)`; otherwise it returns
normally, leaving `words` untouched. -/
def validate (words : List PyStr) : Except (Nat × List PyStr) Unit :=
  if words.length ≠ (counterKeys words).length then
    Except.error (1, (counterKeys words).filter (fun w => 1 < words.count w))
  else
    Except.ok ()

/-- `CHARS_PER_WORD = 4` (`ultra_password.py` line 42). -/
def CHARS_PER_WORD : Nat := 4

/-- `DEFAULT_PASSWORD_LEN = 4` (`ultra_password.py` line 41,
`xkcd_password.py` line 14). -/
def DEFAULT_PASSWORD_LEN : Nat := 4

/-- `secrets.choice(xs)`: a uniformly distributed element of `xs`, embedded
by drawing an oracle value `i : Nat` and selecting index `i % xs.length`
(as `i` ranges over draws of the OS random source, every index is reached,
uniformly); raises `IndexError` (`none`) exactly on an empty sequence. -/
def secretsChoice {α : Type _} (xs : List α) (i : Nat) : Option α :=
  xs[i % xs.length]?

/-- `gen_word` (`ultra_password.py` lines 100-101): join
`CHARS_PER_WORD = 4` independent draws from the charset; `draw k` is the
oracle value of the k-th random draw. -/
def gen_word (charset : PyStr) (draw : Nat → Nat) : Option PyStr :=
  traverseOption (fun k => secretsChoice charset (draw k))
    (List.range CHARS_PER_WORD)

/-- The list of groups generated by `ultra_password.py` line 113
(`gen_word(charset) for x in range(num_words)`). -/
def ultra_groups (charset : PyStr) (numWords : Nat)
    (draws : Nat → Nat → Nat) : Option (List PyStr) :=
  traverseOption (fun w => gen_word charset (draws w)) (List.range numWords)

/-- `" ".join(...)`: join groups with single spaces. -/
def joinSpace (gs : List PyStr) : PyStr := List.intercalate [' '] gs

/-- The full charset-variant password of `ultra_password.py` line 113. -/
def ultra_password (charset : PyStr) (numWords : Nat)
    (draws : Nat → Nat → Nat) : Option PyStr :=
  (ultra_groups charset numWords draws).map joinSpace

/-- The list of words selected by `xkcd_password.py` line 74
(`secrets.choice(words) for i in range(num_words)`). -/
def xkcd_words (words : List PyStr) (numWords : Nat)
    (draws : Nat → Nat) : Option (List PyStr) :=
  traverseOption (fun i => secretsChoice words (draws i)) (List.range numWords)

/-- The full wordlist-variant passphrase of `xkcd_password.py` line 74. -/
def xkcd_password (words : List PyStr) (numWords : Nat)
    (draws : Nat → Nat) : Option PyStr :=
  (xkcd_words words numWords draws).map joinSpace

/-- Value of a decimal digit string. -/
def digitsVal (cs : List Char) : Nat :=
  cs.foldl (fun a c => a * 10 + (c.toNat - '0'.toNat)) 0

/-- Python `int(str)` on an optionally signed decimal string: strip
surrounding whitespace, allow one leading `-` or `+`, then require a
nonempty run of decimal digits; anything else raises `ValueError`
(`none`). -/
def pyInt (s : String) : Option Int :=
  match pyStrip s.data with
  | '-' :: rest =>
    if !rest.isEmpty && rest.all Char.isDigit then
      some (-(digitsVal rest : Int))
    else none
  | '+' :: rest =>
    if !rest.isEmpty && rest.all Char.isDigit then
      some (digitsVal rest : Int)
    else none
  | cs =>
    if !cs.isEmpty && cs.all Char.isDigit then
      some (digitsVal cs : Int)
    else none

/-- The fatal CLI outcomes: an argparse invalid-argument report (usage help
on stderr, non-zero process exit, nothing generated) or an uncaught
`IndexError`. -/
inductive CliError where
  | invalidArgument : String → CliError
  | indexError : CliError
deriving DecidableEq

/-- `_strict_positive_int` (`ultra_password.py` lines 75-81): parse the
argument with `int(...)`, rejecting unparseable strings and values `<= 0`
with `ArgumentTypeError` (argparse then exits non-zero with usage help). -/
def strict_positive_int (value : String) : Except CliError Int :=
  match pyInt value with
  | some i =>
    if i ≤ 0 then Except.error (CliError.invalidArgument value)
    else Except.ok i
  | none => Except.error (CliError.invalidArgument value)

/-- `Charset.from_string` (`ultra_password.py` lines 67-72): look the name up
among the enum members; an unknown name raises `ValueError`, which argparse
reports as an invalid argument and exits non-zero. -/
def Charset.from_string (s : String) : Except CliError PyStr :=
  match Charset.registry.lookup s with
  | some cs => Except.ok cs
  | none => Except.error (CliError.invalidArgument s)

/-- The charset-variant CLI pipeline (`ultra_password.py` lines 104-113):
argparse converts `NUM_WORDS` with `_strict_positive_int` and `--charset`
with `Charset.from_string`; only if both succeed is the password generated
and joined.  An argparse failure aborts before any random draw. -/
def ultra_main (numArg charsetArg : String) (draws : Nat → Nat → Nat) :
    Except CliError PyStr :=
  match strict_positive_int numArg with
  | Except.error e => Except.error e
  | Except.ok n =>
    match Charset.from_string charsetArg with
    | Except.error e => Except.error e
    | Except.ok cs =>
      match ultra_password cs n.toNat draws with
      | some pw => Except.ok pw
      | none => Except.error CliError.indexError

/-- Python `math.log`: defined for strictly positive arguments, raising
`ValueError` (math domain error) otherwise. -/
noncomputable def mathLog (x : ℝ) : Option ℝ :=
  if x ≤ 0 then none else some (Real.log x)

/-- `entropy_per_char = math.log(len(charset))/math.log(2)`
(`ultra_password.py` line 109); the same expression computes `entropy`
in `xkcd_password.py` line 72 with `n` the dictionary size. -/
noncomputable def entropy_per_char (n : Nat) : Option ℝ :=
  (mathLog n).map (fun v => v / Real.log 2)

/-- `pw_entropy = (entropy_per_char * CHARS_PER_WORD) * num_words`
(`ultra_password.py` lines 110-112). -/
noncomputable def ultra_pw_entropy (n numWords : Nat) : Option ℝ :=
  (entropy_per_char n).map (fun e => e * CHARS_PER_WORD * numWords)

/-- `pw_entropy = num_words * entropy` (`xkcd_password.py` line 73). -/
noncomputable def xkcd_pw_entropy (n numWords : Nat) : Option ℝ :=
  (entropy_per_char n).map (fun e => numWords * e)

/-- The spec's entropy formula: `log2(selection_space) * units_per_group *
num_groups`, with an exact base-2 logarithm. -/
noncomputable def specTotalEntropy (s u N : Nat) : ℝ :=
  Real.logb 2 s * u * N

theorem traverseOption_eq_map (f : α → Option β) (g : α → β) (l : List α)
    (h : ∀ a ∈ l, f a = some (g a)) :
    traverseOption f l = some (l.map g) := by
  induction l with
  | nil => rfl
  | cons a l ih =>
    simp only [traverseOption, h a (List.mem_cons_self a l),
      ih (fun x hx => h x (List.mem_cons_of_mem a hx)), List.map_cons]

theorem traverseOption_isSome_iff (f : α → Option β) (l : List α) :
    (traverseOption f l).isSome ↔ ∀ a ∈ l, (f a).isSome := by
  induction l with
  | nil => simp [traverseOption]
  | cons a l ih =>
    cases hfa : f a with
    | none => simp [traverseOption, hfa]
    | some b =>
      cases hl : traverseOption f l with
      | none =>
        simp only [traverseOption, hfa, hl]
        constructor
        · intro h
          exact Bool.noConfusion h
        · intro h
          have hsome := ih.mpr (fun x hx => h x (List.mem_cons_of_mem a hx))
          rw [hl] at hsome
          exact Bool.noConfusion hsome
      | some bs =>
        simp only [traverseOption, hfa, hl, Option.isSome_some, true_iff]
        intro x hx
        rcases List.mem_cons.mp hx with rfl | hx'
        · rw [hfa]; rfl
        · have := ih.mp (by rw [hl]; rfl)
          exact this x hx'

theorem traverseOption_some (f : α → Option β) (l : List α)
    (h : ∀ a ∈ l, (f a).isSome) :
    ∃ bs, traverseOption f l = some bs ∧ bs.length = l.length ∧
      ∀ b ∈ bs, ∃ a ∈ l, f a = some b := by
  induction l with
  | nil => exact ⟨[], rfl, rfl, by simp⟩
  | cons a l ih =>
    obtain ⟨b, hb⟩ := Option.isSome_iff_exists.mp (h a (List.mem_cons_self a l))
    obtain ⟨bs, hbs, hlen, hmem⟩ := ih (fun x hx => h x (List.mem_cons_of_mem a hx))
    refine ⟨b :: bs, ?_, by simp [hlen], ?_⟩
    · simp only [traverseOption, hb, hbs]
    · intro c hc
      rcases List.mem_cons.mp hc with rfl | h2
      · exact ⟨a, List.mem_cons_self a l, hb⟩
      · obtain ⟨x, hx, hfx⟩ := hmem c h2
        exact ⟨x, List.mem_cons_of_mem a hx, hfx⟩

theorem loadLine_eq_specLineWord (line : PyStr)
    (h : pySplit (pyStrip line) ≠ []) :
    loadLine line = some (specLineWord line) := by
  unfold loadLine specLineWord
  have hpos : 0 < (pySplit (pyStrip line)).length := List.length_pos.mpr h
  by_cases h2 : (pySplit (pyStrip line)).length = 2
  · have h1 : 1 < (pySplit (pyStrip line)).length := by omega
    simp [h2, List.getElem?_eq_getElem h1, List.getD_eq_getElem?_getD]
  · simp [h2, List.getElem?_eq_getElem hpos, List.getD_eq_getElem?_getD]

theorem loadLine_isSome_iff (line : PyStr) :
    (loadLine line).isSome ↔ pySplit (pyStrip line) ≠ [] := by
  unfold loadLine
  by_cases h2 : (pySplit (pyStrip line)).length = 2
  · have h1 : 1 < (pySplit (pyStrip line)).length := by omega
    simp only [h2, if_true, List.getElem?_eq_getElem h1, Option.isSome_some,
      true_iff]
    intro hnil
    rw [hnil] at h2
    simp at h2
  · simp only [h2, if_false]
    constructor
    · intro h
      obtain ⟨w, hw⟩ := Option.isSome_iff_exists.mp h
      obtain ⟨hlt, -⟩ := List.getElem?_eq_some_iff.mp hw
      exact List.length_pos.mp hlt
    · intro h
      have hpos : 0 < (pySplit (pyStrip line)).length := List.length_pos.mpr h
      simp [List.getElem?_eq_getElem hpos]

theorem mem_counterKeys {α : Type _} [DecidableEq α] (l : List α) (a : α) :
    a ∈ counterKeys l ↔ a ∈ l := by
  induction l with
  | nil => simp [counterKeys]
  | cons w ws ih =>
    simp only [counterKeys, List.mem_cons, List.mem_filter, ih,
      decide_eq_true_eq]
    by_cases h : a = w <;> simp [h]

theorem counterKeys_length_le {α : Type _} [DecidableEq α] (l : List α) :
    (counterKeys l).length ≤ l.length := by
  induction l with
  | nil => simp [counterKeys]
  | cons w ws ih =>
    simp only [counterKeys, List.length_cons]
    have := List.length_filter_le (fun x => decide (x ≠ w)) (counterKeys ws)
    omega

theorem counterKeys_eq_self_of_nodup {α : Type _} [DecidableEq α] {l : List α}
    (h : l.Nodup) : counterKeys l = l := by
  induction l with
  | nil => rfl
  | cons w ws ih =>
    obtain ⟨hw, hws⟩ := List.nodup_cons.mp h
    rw [counterKeys, ih hws, List.filter_eq_self.mpr]
    intro a ha
    simp only [decide_eq_true_eq]
    exact fun hEq => hw (hEq ▸ ha)

theorem nodup_of_counterKeys_length_eq {α : Type _} [DecidableEq α]
    {l : List α} (h : (counterKeys l).length = l.length) : l.Nodup := by
  induction l with
  | nil => exact List.nodup_nil
  | cons w ws ih =>
    rw [counterKeys, List.length_cons, List.length_cons] at h
    have hle1 := List.length_filter_le (fun x => decide (x ≠ w)) (counterKeys ws)
    have hle2 := counterKeys_length_le ws
    have hfil : ((counterKeys ws).filter (fun x => x ≠ w)).length
        = (counterKeys ws).length := by omega
    have hkey : (counterKeys ws).length = ws.length := by omega
    have hall := List.filter_length_eq_length.mp hfil
    rw [List.nodup_cons]
    refine ⟨?_, ih hkey⟩
    intro hmem
    have := hall w ((mem_counterKeys ws w).mpr hmem)
    simp at this

theorem counterKeys_length_eq_iff {α : Type _} [DecidableEq α] (l : List α) :
    (counterKeys l).length = l.length ↔ l.Nodup :=
  ⟨nodup_of_counterKeys_length_eq,
   fun h => by rw [counterKeys_eq_self_of_nodup h]⟩

theorem nodup_iff_forall_count_le_one {α : Type _} [BEq α] [LawfulBEq α]
    (l : List α) : l.Nodup ↔ ∀ a ∈ l, l.count a ≤ 1 := by
  induction l with
  | nil => simp
  | cons w ws ih =>
    rw [List.nodup_cons]
    constructor
    · rintro ⟨hw, hnd⟩ a ha
      rcases List.mem_cons.mp ha with rfl | ha'
      · simp [List.count_cons_self, List.count_eq_zero.mpr hw]
      · by_cases haw : a = w
        · subst haw
          simp [List.count_cons_self, List.count_eq_zero.mpr hw]
        · rw [List.count_cons_of_ne haw]
          exact ih.mp hnd a ha'
    · intro h
      refine ⟨?_, ih.mpr ?_⟩
      · intro hmem
        have h1 := h w (List.mem_cons_self w ws)
        rw [List.count_cons_self] at h1
        have h2 := List.count_pos_iff.mpr hmem
        omega
      · intro a ha
        have h1 := h a (List.mem_cons_of_mem w ha)
        have h2 := List.count_le_count_cons a w ws
        omega

/-- C3: every charset registered in the `Charset` registry has at least 2
symbols and contains no repeated characters. -/
theorem charset_registry_len_ge_two_and_nodup :
    ∀ p ∈ Charset.registry, 2 ≤ p.2.length ∧ p.2.Nodup := by
  decide

/-- Witness for C3 at the concrete registry entry for `base58`. -/
theorem charset_registry_len_ge_two_and_nodup_witness :
    ("base58", Charset.base58) ∈ Charset.registry ∧
      (2 ≤ Charset.base58.length ∧ Charset.base58.Nodup) :=
  ⟨by decide, charset_registry_len_ge_two_and_nodup ("base58", Charset.base58) (by decide)⟩

/-- C5 counterexample: the registry's default symbol sequence does not have
length 31 — it has 32 characters. -/
theorem default_charset_length_ne_31 : ¬ Charset.default.length = 31 := by
  decide

/-- C5 (amended): the charset used by the charset-variant CLI when no
`--charset` option is given is `Charset.default`, a registered charset of
exactly 32 symbols. -/
theorem default_charset_length_eq_32 :
    Charset.default.length = 32 ∧ ("default", Charset.default) ∈ Charset.registry := by
  decide

/-- C6: the `base58` charset contains none of `0`, `O`, `I`, `l`, and the
`bech32` charset contains none of `0`, `1`, `b`, `i`. -/
theorem base58_bech32_exclusions :
    ('0' ∉ Charset.base58 ∧ 'O' ∉ Charset.base58 ∧
     'I' ∉ Charset.base58 ∧ 'l' ∉ Charset.base58) ∧
    ('0' ∉ Charset.bech32 ∧ '1' ∉ Charset.bech32 ∧
     'b' ∉ Charset.bech32 ∧ 'i' ∉ Charset.bech32) := by
  decide

/-- C4: with every line holding at least one token, `load` yields, in file
order and without removing duplicates, the second token of each two-token
line and the first token of every other line; in particular the file
`"1 apple\n2 banana\n3 cherry\n"` loads as `["apple", "banana", "cherry"]`. -/
theorem load_words_in_file_order (lines : List PyStr)
    (h : ∀ line ∈ lines, pySplit (pyStrip line) ≠ []) :
    load lines = some (lines.map specLineWord) ∧
    load ["1 apple".data, "2 banana".data, "3 cherry".data] =
      some ["apple".data, "banana".data, "cherry".data] := by
  constructor
  · exact traverseOption_eq_map loadLine specLineWord lines
      (fun line hline => loadLine_eq_specLineWord line (h line hline))
  · decide

/-- Witness for C4 at the spec's concrete three-line Diceware-style file. -/
theorem load_words_in_file_order_witness :
    load ["1 apple".data, "2 banana".data, "3 cherry".data] =
      some (["1 apple".data, "2 banana".data, "3 cherry".data].map specLineWord) ∧
    load ["1 apple".data, "2 banana".data, "3 cherry".data] =
      some ["apple".data, "banana".data, "cherry".data] :=
  load_words_in_file_order ["1 apple".data, "2 banana".data, "3 cherry".data]
    (by decide)

/-- C10: `load` succeeds exactly when every line has at least one whitespace
token; a file with an empty or whitespace-only line makes the loader fail
with an uncaught indexing error (`tokens[0]` on an empty token list). -/
theorem load_fails_on_blank_line (lines : List PyStr)
    (hblank : ∃ line ∈ lines, pySplit (pyStrip line) = []) :
    load lines = none ∧
    ∀ lines' : List PyStr,
      ((load lines').isSome ↔ ∀ line ∈ lines', pySplit (pyStrip line) ≠ []) := by
  have hiff : ∀ lines' : List PyStr,
      ((load lines').isSome ↔ ∀ line ∈ lines', pySplit (pyStrip line) ≠ []) := by
    intro lines'
    unfold load
    rw [traverseOption_isSome_iff]
    exact forall₂_congr (fun line _ => loadLine_isSome_iff line)
  refine ⟨?_, hiff⟩
  obtain ⟨line, hline, hempty⟩ := hblank
  have : ¬ (load lines).isSome := by
    rw [hiff lines]
    intro hall
    exact hall line hline hempty
  exact Option.not_isSome_iff_eq_none.mp this

/-- Witness for C10: a file whose second line is whitespace-only fails to
load. -/
theorem load_fails_on_blank_line_witness :
    load ["apple".data, "   ".data] = none :=
  (load_fails_on_blank_line ["apple".data, "   ".data]
    ⟨"   ".data, by decide, by decide⟩).1

/-- C2: if any loaded word occurs more than once, `validate` terminates the
process with exit status 1 and a message listing exactly the words whose
count exceeds 1, so no password is generated; if all words are distinct it
returns normally (the word sequence, being immutable here, is unchanged). -/
theorem validate_reports_duplicates (words : List PyStr) :
    ((∃ w ∈ words, 1 < words.count w) →
      ∃ d, validate words = Except.error (1, d) ∧
        ∀ w, (w ∈ d ↔ w ∈ words ∧ 1 < words.count w)) ∧
    ((∀ w ∈ words, words.count w ≤ 1) → validate words = Except.ok ()) := by
  constructor
  · rintro ⟨w, hw, hcount⟩
    have hnotnodup : ¬ words.Nodup := by
      intro hnd
      exact absurd ((nodup_iff_forall_count_le_one words).mp hnd w hw) (by omega)
    have hne : words.length ≠ (counterKeys words).length := by
      intro hEq
      exact hnotnodup (nodup_of_counterKeys_length_eq hEq.symm)
    refine ⟨(counterKeys words).filter (fun w => 1 < words.count w),
      by rw [validate, if_pos hne], ?_⟩
    intro x
    rw [List.mem_filter, mem_counterKeys, decide_eq_true_eq]
  · intro h
    have hnd : words.Nodup := (nodup_iff_forall_count_le_one words).mpr h
    have hEq : words.length = (counterKeys words).length :=
      (congrArg List.length (counterKeys_eq_self_of_nodup hnd)).symm
    rw [validate, if_neg (by omega)]

/-- Witness for C2: `["apple", "apple"]` is rejected with exit status 1 and
`apple` listed as duplicated, while `["apple"]` validates. -/
theorem validate_reports_duplicates_witness :
    (∃ d, validate ["apple".data, "apple".data] = Except.error (1, d) ∧
      ∀ w, (w ∈ d ↔ w ∈ ["apple".data, "apple".data] ∧
        1 < (["apple".data, "apple".data] : List PyStr).count w)) ∧
    validate ["apple".data] = Except.ok () :=
  ⟨(validate_reports_duplicates ["apple".data, "apple".data]).1
      ⟨"apple".data, by decide, by decide⟩,
   (validate_reports_duplicates ["apple".data]).2 (by decide)⟩

theorem secretsChoice_isSome_iff {α : Type _} (xs : List α) (i : Nat) :
    (secretsChoice xs i).isSome ↔ xs ≠ [] := by
  unfold secretsChoice
  constructor
  · intro h
    obtain ⟨a, ha⟩ := Option.isSome_iff_exists.mp h
    obtain ⟨hlt, -⟩ := List.getElem?_eq_some_iff.mp ha
    exact List.length_pos.mp (Nat.lt_of_le_of_lt (Nat.zero_le _) hlt)
  · intro h
    have hpos : 0 < xs.length := List.length_pos.mpr h
    have hlt : i % xs.length < xs.length := Nat.mod_lt i hpos
    simp [List.getElem?_eq_getElem hlt]

theorem secretsChoice_mem {α : Type _} (xs : List α) (i : Nat) (a : α)
    (h : secretsChoice xs i = some a) : a ∈ xs := by
  unfold secretsChoice at h
  obtain ⟨hlt, heq⟩ := List.getElem?_eq_some_iff.mp h
  exact heq ▸ List.getElem_mem hlt

theorem gen_word_spec (charset : PyStr) (draw : Nat → Nat)
    (h : charset ≠ []) :
    ∃ g, gen_word charset draw = some g ∧ g.length = CHARS_PER_WORD ∧
      ∀ c ∈ g, c ∈ charset := by
  obtain ⟨g, hg, hlen, hmem⟩ := traverseOption_some
    (fun k => secretsChoice charset (draw k)) (List.range CHARS_PER_WORD)
    (fun k _ => (secretsChoice_isSome_iff charset (draw k)).mpr h)
  refine ⟨g, hg, by simpa using hlen, ?_⟩
  intro c hc
  obtain ⟨k, -, hk⟩ := hmem c hc
  exact secretsChoice_mem charset (draw k) c hk

/-- C1: for every N > 0, the charset-variant password is exactly N groups of
4 characters, each drawn from the chosen charset, joined by single spaces;
the wordlist-variant password is exactly N entries of the loaded wordlist
joined by single spaces. -/
theorem password_shape (charset : PyStr) (wordlist : List PyStr) (N : Nat)
    (draws : Nat → Nat → Nat) (wdraws : Nat → Nat)
    (hN : 0 < N) (hcs : charset ≠ []) (hwl : wordlist ≠ []) :
    (∃ gs, ultra_groups charset N draws = some gs ∧ gs.length = N ∧
      (∀ g ∈ gs, g.length = 4 ∧ ∀ c ∈ g, c ∈ charset) ∧
      ultra_password charset N draws = some (joinSpace gs)) ∧
    (∃ sel, xkcd_words wordlist N wdraws = some sel ∧ sel.length = N ∧
      (∀ w ∈ sel, w ∈ wordlist) ∧
      xkcd_password wordlist N wdraws = some (joinSpace sel)) := by
  constructor
  · obtain ⟨gs, hgs, hlen, hmem⟩ := traverseOption_some
      (fun w => gen_word charset (draws w)) (List.range N)
      (fun w _ => by
        obtain ⟨g, hg, -, -⟩ := gen_word_spec charset (draws w) hcs
        show (gen_word charset (draws w)).isSome = true
        rw [hg]
        rfl)
    refine ⟨gs, hgs, by simpa using hlen, ?_, ?_⟩
    · intro g hgmem
      obtain ⟨w, -, hw⟩ := hmem g hgmem
      obtain ⟨g', hg', hlen', hmem'⟩ := gen_word_spec charset (draws w) hcs
      rw [hg'] at hw
      obtain rfl : g' = g := Option.some.inj hw
      exact ⟨hlen', hmem'⟩
    · unfold ultra_password ultra_groups
      rw [hgs]
      rfl
  · obtain ⟨sel, hsel, hlen, hmem⟩ := traverseOption_some
      (fun i => secretsChoice wordlist (wdraws i)) (List.range N)
      (fun i _ => (secretsChoice_isSome_iff wordlist (wdraws i)).mpr hwl)
    refine ⟨sel, hsel, by simpa using hlen, ?_, ?_⟩
    · intro w hwmem
      obtain ⟨i, -, hi⟩ := hmem w hwmem
      exact secretsChoice_mem wordlist (wdraws i) w hi
    · unfold xkcd_password xkcd_words
      rw [hsel]
      rfl

/-- Witness for C1 with N = 2, the default charset and a two-word list. -/
theorem password_shape_witness :
    (∃ gs, ultra_groups Charset.default 2 (fun _ _ => 0) = some gs ∧
      gs.length = 2 ∧
      (∀ g ∈ gs, g.length = 4 ∧ ∀ c ∈ g, c ∈ Charset.default) ∧
      ultra_password Charset.default 2 (fun _ _ => 0) = some (joinSpace gs)) ∧
    (∃ sel, xkcd_words ["apple".data, "zebra".data] 2 (fun _ => 1) = some sel ∧
      sel.length = 2 ∧
      (∀ w ∈ sel, w ∈ ["apple".data, "zebra".data]) ∧
      xkcd_password ["apple".data, "zebra".data] 2 (fun _ => 1) =
        some (joinSpace sel)) :=
  password_shape Charset.default ["apple".data, "zebra".data] 2
    (fun _ _ => 0) (fun _ => 1) (by decide) (by decide) (by decide)

/-- C9: generation and the entropy calculation fail exactly on an empty
source sequence: every draw from a non-empty charset or wordlist succeeds
(the failure branch is unreachable), while for an empty sequence both the
draw and the entropy calculation fail. -/
theorem generation_fails_only_on_empty (cs : PyStr) (ws : List PyStr)
    (draw : Nat → Nat) (i n : Nat) :
    ((gen_word cs draw).isSome ↔ cs ≠ []) ∧
    ((secretsChoice ws i).isSome ↔ ws ≠ []) ∧
    ((entropy_per_char n).isSome ↔ n ≠ 0) ∧
    gen_word [] draw = none ∧
    entropy_per_char 0 = none := by
  have hgen : ∀ cs' : PyStr, ((gen_word cs' draw).isSome ↔ cs' ≠ []) := by
    intro cs'
    unfold gen_word
    rw [traverseOption_isSome_iff]
    constructor
    · intro h
      exact (secretsChoice_isSome_iff cs' (draw 0)).mp (h 0 (by decide))
    · intro h k _
      exact (secretsChoice_isSome_iff cs' (draw k)).mpr h
  have hent : ∀ m : Nat, ((entropy_per_char m).isSome ↔ m ≠ 0) := by
    intro m
    unfold entropy_per_char mathLog
    by_cases hm : m = 0
    · subst hm
      simp
    · have hpos : ¬((m : ℝ) ≤ 0) := by
        push_neg
        exact_mod_cast Nat.pos_of_ne_zero hm
      simp [hpos, hm]
  refine ⟨hgen cs, secretsChoice_isSome_iff ws i, hent n, ?_, ?_⟩
  · refine Option.not_isSome_iff_eq_none.mp ?_
    rw [hgen []]
    simp
  · refine Option.not_isSome_iff_eq_none.mp ?_
    rw [hent 0]
    simp

/-- C7: the reported total entropy equals `log2(s) * u * N` — with `log2`
computed as `log(s)/log(2)` — exactly, hence within the spec's 1e-9 relative
tolerance; the units-per-group factor is `CHARS_PER_WORD = 4` for the
charset variant and 1 for the wordlist variant. -/
theorem entropy_matches_spec (s N : Nat) (h : 0 < s) :
    (∃ e, ultra_pw_entropy s N = some e ∧
      |e - specTotalEntropy s CHARS_PER_WORD N| ≤
        1e-9 * |specTotalEntropy s CHARS_PER_WORD N|) ∧
    (∃ e, xkcd_pw_entropy s N = some e ∧
      |e - specTotalEntropy s 1 N| ≤ 1e-9 * |specTotalEntropy s 1 N|) := by
  have hs : ¬((s : ℝ) ≤ 0) := by
    push_neg
    exact_mod_cast h
  have hlog : mathLog s = some (Real.log s) := by
    rw [mathLog, if_neg hs]
  have hepc : entropy_per_char s = some (Real.log s / Real.log 2) := by
    rw [entropy_per_char, hlog]
    rfl
  have hspec : ∀ u : Nat,
      specTotalEntropy s u N = Real.log s / Real.log 2 * u * N := by
    intro u
    rw [specTotalEntropy, Real.log_div_log]
  constructor
  · refine ⟨Real.log s / Real.log 2 * CHARS_PER_WORD * N, ?_, ?_⟩
    · rw [ultra_pw_entropy, hepc]
      rfl
    · rw [hspec CHARS_PER_WORD, sub_self, abs_zero]
      positivity
  · refine ⟨(N : ℝ) * (Real.log s / Real.log 2), ?_, ?_⟩
    · rw [xkcd_pw_entropy, hepc]
      rfl
    · rw [hspec 1]
      have harr : Real.log s / Real.log 2 * ((1 : ℕ) : ℝ) * N
          = (N : ℝ) * (Real.log s / Real.log 2) := by
        push_cast
        ring
      rw [harr, sub_self, abs_zero]
      positivity

/-- Witness for C7 at a 32-symbol selection space and N = 4 groups. -/
theorem entropy_matches_spec_witness :
    (∃ e, ultra_pw_entropy 32 4 = some e ∧
      |e - specTotalEntropy 32 CHARS_PER_WORD 4| ≤
        1e-9 * |specTotalEntropy 32 CHARS_PER_WORD 4|) ∧
    (∃ e, xkcd_pw_entropy 32 4 = some e ∧
      |e - specTotalEntropy 32 1 4| ≤ 1e-9 * |specTotalEntropy 32 1 4|) :=
  entropy_matches_spec 32 4 (by norm_num)

theorem lookup_eq_none_of_not_mem {β : Type _} (l : List (String × β))
    (s : String) (h : s ∉ l.map Prod.fst) : l.lookup s = none := by
  induction l with
  | nil => rfl
  | cons p l ih =>
    obtain ⟨k, b⟩ := p
    simp only [List.map_cons, List.mem_cons] at h
    push_neg at h
    have hk : (s == k) = false := beq_eq_false_iff_ne.mpr h.1
    simp [List.lookup, hk, ih h.2]

/-- C8: a `NUM_WORDS` argument that does not parse as an integer or parses
to a value `<= 0` (in particular `0` and `-1`), and a `--charset` name
absent from the registry, are rejected at argument-parsing time with an
invalid-argument error and a non-zero exit; the pipeline then returns that
error whatever the random oracle holds, i.e. before any draw occurs. -/
theorem invalid_cli_arguments_rejected (v s : String)
    (draws : Nat → Nat → Nat)
    (hv : pyInt v = none ∨ ∃ i, pyInt v = some i ∧ i ≤ 0)
    (hs : s ∉ Charset.registry.map Prod.fst) :
    strict_positive_int v = Except.error (CliError.invalidArgument v) ∧
    Charset.from_string s = Except.error (CliError.invalidArgument s) ∧
    ultra_main v s draws = Except.error (CliError.invalidArgument v) ∧
    ultra_main "4" s draws = Except.error (CliError.invalidArgument s) ∧
    strict_positive_int "0" = Except.error (CliError.invalidArgument "0") ∧
    strict_positive_int "-1" = Except.error (CliError.invalidArgument "-1") := by
  have hspi : strict_positive_int v
      = Except.error (CliError.invalidArgument v) := by
    unfold strict_positive_int
    rcases hv with hnone | ⟨i, hi, hle⟩
    · rw [hnone]
    · rw [hi]
      simp [hle]
  have hfs : Charset.from_string s
      = Except.error (CliError.invalidArgument s) := by
    unfold Charset.from_string
    rw [lookup_eq_none_of_not_mem _ s hs]
  have hmain : ultra_main v s draws
      = Except.error (CliError.invalidArgument v) := by
    unfold ultra_main
    rw [hspi]
  have hmain4 : ultra_main "4" s draws
      = Except.error (CliError.invalidArgument s) := by
    have h4 : strict_positive_int "4" = Except.ok 4 := by rfl
    unfold ultra_main
    rw [h4, hfs]
  exact ⟨hspi, hfs, hmain, hmain4, by rfl, by rfl⟩

/-- Witness for C8: the unparseable length `"abc"` and the unknown charset
name `"base99"`. -/
theorem invalid_cli_arguments_rejected_witness :
    strict_positive_int "abc" = Except.error (CliError.invalidArgument "abc") ∧
    Charset.from_string "base99" =
      Except.error (CliError.invalidArgument "base99") ∧
    ultra_main "abc" "base99" (fun _ _ => 0) =
      Except.error (CliError.invalidArgument "abc") ∧
    ultra_main "4" "base99" (fun _ _ => 0) =
      Except.error (CliError.invalidArgument "base99") ∧
    strict_positive_int "0" = Except.error (CliError.invalidArgument "0") ∧
    strict_positive_int "-1" = Except.error (CliError.invalidArgument "-1") :=
  invalid_cli_arguments_rejected "abc" "base99" (fun _ _ => 0)
    (Or.inl (by rfl)) (by decide)

end GenPassword
